/-
  Verification of the rgb-logseq-toolkit parsing core.

  Shallow embedding of src/rgb_logseq/{line,property,link,block,page}.py.
  Strings are modelled as lists of characters; fallible constructions
  return Except values mirroring the Python exceptions they raise.
-/
import Mathlib

/-- Python strings are modelled as lists of characters. -/
abbrev Chars := List Char

/-- Convert a Lean string literal to the character-list model. -/
def strC (s : String) : Chars := s.data

/-- Does the second list start with the first?  Models str.startswith. -/
def strStarts : Chars → Chars → Bool
  | [], _ => true
  | _ :: _, [] => false
  | p :: ps, c :: cs => (p == c) && strStarts ps cs

/-- Substring containment; models the Python `in` operator on strings. -/
def containsSub (needle : Chars) : Chars → Bool
  | [] => needle.isEmpty
  | c :: rest => strStarts needle (c :: rest) || containsSub needle rest

/-- Split at the first occurrence of a separator, returning the text before
    and the text after it, or none when the separator does not occur. -/
def breakOnFirst (sep : Chars) : Chars → Option (Chars × Chars)
  | [] => if sep.isEmpty then some ([], []) else none
  | c :: rest =>
    if strStarts sep (c :: rest) then some ([], List.drop sep.length (c :: rest))
    else
      match breakOnFirst sep rest with
      | some (pre, post) => some (c :: pre, post)
      | none => none

/-- Fuelled worker for splitOnSep. -/
def splitOnSepGo (sep : Chars) : Nat → Chars → List Chars
  | 0, s => [s]
  | fuel + 1, s =>
    match breakOnFirst sep s with
    | none => [s]
    | some (pre, post) => pre :: splitOnSepGo sep fuel post

/-- Models Python str.split(sep) with no maxsplit: splits at every
    non-overlapping occurrence of the separator, scanning left to right. -/
def splitOnSep (sep : Chars) (s : Chars) : List Chars :=
  splitOnSepGo sep (s.length + 1) s

/-- Models str.lstrip() with no argument (strip leading whitespace). -/
def lstripWs (s : Chars) : Chars := s.dropWhile Char.isWhitespace

/-- Models str.lower(); per-character ASCII lowering.  (Python lower also
    folds non-ASCII letters, but no character outside ASCII lowers to a
    character of the truthy tokens used below, so the difference is inert.) -/
def pyLower (s : Chars) : Chars := s.map Char.toLower

/-- Split a list at the first occurrence of a given character: the part
    before it and the remainder starting at that character. -/
def spanNe (bad : Char) : Chars → Chars × Chars
  | [] => ([], [])
  | c :: rest =>
    if c = bad then ([], c :: rest)
    else
      let p := spanNe bad rest
      (c :: p.1, p.2)

/- Constants from src/rgb_logseq/const.py. -/

def MARK_BLOCK_OPENER : Chars := ['-']
def MARK_BLOCK_CONTINUATION : Chars := [' ']
def MARK_BLOCK_INDENT : Char := '\t'
def MARK_CODE_FENCE : Chars := ['`', '`', '`']
def MARK_DIRECTIVE_OPENER : Chars := ['#', '+', 'B', 'E', 'G', 'I', 'N']
def MARK_DIRECTIVE_CLOSER : Chars := ['#', '+', 'E', 'N', 'D']
def MARK_DIRECTIVE_SPLIT : Char := '_'
def MARK_PROPERTY : Chars := [':', ':', ' ']

/-- Error kinds raised by the parsing core.  Python raises ValueError /
    BlockDepthError / IndexError / pydantic ValidationError with messages;
    we track only the kind of each failure. -/
inductive Err where
  | notEnoughValues
  | tooManyValues
  | depthMismatch
  | unclosedCodeBlock
  | unclosedDirective
  | unopenedDirective
  | firstLineContinuation
  | directiveIndexError
  | notPropertyLine
  | invalidResourceTarget
  | invalidUuid
  | emptyLines
  deriving DecidableEq, Repr

deriving instance DecidableEq for Except

/- Property: src/rgb_logseq/property.py -/

/-- Fixed truthy-token set from property.py. -/
def TRUE_VALUES : List Chars :=
  [strC ("true"), strC ("1"), strC ("yes"), strC ("on"), strC ("enabled")]

structure Property where
  raw : Chars
  field : Chars
  value : Chars
  deriving DecidableEq, Repr

/-- Property.loads: `field, value = text.lstrip().split(MARK_PROPERTY)`.
    The two-name unpacking raises ValueError unless the split yields
    exactly two parts. -/
def Property.loads (text : Chars) : Except Err Property :=
  match splitOnSep MARK_PROPERTY (lstripWs text) with
  | [f, v] => Except.ok ⟨text, f, v⟩
  | [_] => Except.error Err.notEnoughValues
  | _ => Except.error Err.tooManyValues

/-- Property.is_true: `self.value.lower() in TRUE_VALUES`. -/
def Property.is_true (p : Property) : Bool :=
  TRUE_VALUES.contains (pyLower p.value)

/- Line: src/rgb_logseq/line.py -/

structure Line where
  raw : Chars
  deriving DecidableEq, Repr

instance : Inhabited Line := ⟨⟨[]⟩⟩

/-- Line.__unindented: `self.raw.lstrip(MARK_BLOCK_INDENT)`. -/
def Line.unindented (l : Line) : Chars :=
  l.raw.dropWhile (fun c => c == MARK_BLOCK_INDENT)

/-- Line.content: raw text without graph structure indicators. -/
def Line.content (l : Line) : Chars :=
  let u := l.unindented
  if u = [] then []
  else if u = MARK_BLOCK_OPENER then []
  else if u.head? = some '-' || u.head? = some ' ' then u.drop 2
  else u

/-- Line.depth: indentation count plus one for an opener or continuation
    marker (or a bare opener). -/
def Line.depth (l : Line) : Nat :=
  let u := l.unindented
  let base := l.raw.length - u.length
  if strStarts MARK_BLOCK_OPENER u then base + 1
  else if strStarts MARK_BLOCK_CONTINUATION u then base + 1
  else if u = MARK_BLOCK_OPENER then base + 1
  else base

/-- Line.is_code_fence: content starts with the code-fence token. -/
def Line.is_code_fence (l : Line) : Bool :=
  strStarts MARK_CODE_FENCE l.content

/-- Line.is_block_opener: unindented source starts with the opener marker. -/
def Line.is_block_opener (l : Line) : Bool :=
  strStarts ['-'] l.unindented

/-- Line.is_directive_opener: content starts with the directive-open token. -/
def Line.is_directive_opener (l : Line) : Bool :=
  strStarts MARK_DIRECTIVE_OPENER l.content

/-- Line.is_directive_closer: content starts with the directive-close token. -/
def Line.is_directive_closer (l : Line) : Bool :=
  strStarts MARK_DIRECTIVE_CLOSER l.content

/-- Line.is_property: content carries the separator and is not a fence. -/
def Line.is_property (l : Line) : Bool :=
  containsSub MARK_PROPERTY l.content && !l.is_code_fence

/-- Line.is_content: neither a property line nor a directive marker. -/
def Line.is_content (l : Line) : Bool :=
  !l.is_property && !l.is_directive_opener && !l.is_directive_closer

/-- Line.directive: `self.content.split(MARK_DIRECTIVE_SPLIT)[1]` for a
    directive opener or closer; the index raises IndexError when the
    content has no split token.  Empty string otherwise. -/
def Line.directiveE (l : Line) : Except Err Chars :=
  if l.is_directive_opener || l.is_directive_closer then
    match (splitOnSep [MARK_DIRECTIVE_SPLIT] l.content).get? 1 with
    | some d => Except.ok d
    | none => Except.error Err.directiveIndexError
  else Except.ok []

/-- Line.as_property: fails on a non-property line, otherwise delegates to
    Property.loads on the content. -/
def Line.as_property (l : Line) : Except Err Property :=
  if l.is_property then Property.loads l.content
  else Except.error Err.notPropertyLine

/-- parse_line from line.py. -/
def parse_line (source : Chars) : Line := ⟨source⟩

/-- parse_lines from line.py. -/
def parse_lines (lines : List Chars) : List Line := lines.map parse_line

/- Links: src/rgb_logseq/link.py -/

/-- PATH_ASSETS from link.py. -/
def PATH_ASSETS : Chars := ['.', '.', '/', 'a', 's', 's', 'e', 't', 's']

inductive LinkType where
  | page
  | tag
  deriving DecidableEq, Repr

structure DirectLink where
  target : Chars
  link_type : LinkType
  link_text : Option Chars := none
  deriving DecidableEq, Repr

/-- DirectLink.as_tag. -/
def DirectLink.as_tag (tag : Chars) : DirectLink := ⟨tag, LinkType.tag, none⟩

/-- DirectLink.to_page (with the default link_text of None). -/
def DirectLink.to_page (page_name : Chars) : DirectLink :=
  ⟨page_name, LinkType.page, none⟩

structure BlockLink where
  target : Chars
  deriving DecidableEq, Repr

structure ResourceLink where
  target : Chars
  link_text : Chars
  is_embed : Bool := false
  deriving DecidableEq, Repr

/-- ResourceLink.is_asset_file: target starts with the assets path. -/
def ResourceLink.is_asset_file (r : ResourceLink) : Bool :=
  strStarts PATH_ASSETS r.target

/-- Coarse model of pydantic AnyUrl acceptance: a non-empty alphabetic
    scheme, a scheme separator, and a non-empty remainder.  Every theorem
    below feeds targets that short-circuit at the assets-path check, so
    the approximation is never exercised at a decision boundary. -/
def anyUrlOk (t : Chars) : Bool :=
  match breakOnFirst (strC ("://")) t with
  | some (scheme, rest) =>
    (!scheme.isEmpty) && scheme.all Char.isAlpha && !rest.isEmpty
  | none => false

/-- Constructing a ResourceLink, running the one validator present in
    src/link.py (target_is_asset_file_or_uri): the target must start with
    the assets path or be a valid URL.  No other field is validated. -/
def mkResourceLink (target link_text : Chars) (is_embed : Bool) :
    Except Err ResourceLink :=
  if strStarts PATH_ASSETS target then Except.ok ⟨target, link_text, is_embed⟩
  else if anyUrlOk target then Except.ok ⟨target, link_text, is_embed⟩
  else Except.error Err.invalidResourceTarget

/- Regex scanning.

   The extraction patterns of line.py are compiled regexes; `findall` scans
   the content left to right, emitting non-overlapping matches.  Each
   pattern is modelled by a matcher that, applied at a position, either
   fails or returns the captured groups, the last character consumed and
   the remaining suffix.  Lookbehinds inspect the character just before
   the current position, which the scanner threads through. -/

/-- One scanning step per unit of fuel; fuel equal to the length of the
    text suffices since every matcher consumes at least one character. -/
def scanGo {α : Type} (m : Option Char → Chars → Option (α × Char × Chars)) :
    Nat → Option Char → Chars → List α
  | 0, _, _ => []
  | _ + 1, _, [] => []
  | fuel + 1, prev, c :: rest =>
    match m prev (c :: rest) with
    | some (a, lc, s) => a :: scanGo m fuel (some lc) s
    | none => scanGo m fuel (some c) rest

/-- Models re.findall of a pattern matcher over the whole text. -/
def scanAll {α : Type} (m : Option Char → Chars → Option (α × Char × Chars))
    (s : Chars) : List α :=
  scanGo m (s.length + 1) none s

/-- Word characters for the \w class.  (Python also admits non-ASCII word
    characters; no theorem below exercises them.) -/
def isWordCh (c : Char) : Bool := c.isAlphanum || c == '_'

/-- Split a list at the first non-word character. -/
def spanWord : Chars → Chars × Chars
  | [] => ([], [])
  | c :: rest =>
    if isWordCh c then
      let p := spanWord rest
      (c :: p.1, p.2)
    else ([], c :: rest)

/-- LINK_PATTERN: a double-bracketed span not preceded by a backtick or a
    hash sign; the target is the non-empty bracket-free interior. -/
def matchDirect (prev : Option Char) (s : Chars) :
    Option (Chars × Char × Chars) :=
  match s with
  | a :: b :: rest =>
    if a = '[' ∧ b = '[' then
      if prev = some '\x60' ∨ prev = some '#' then none
      else
        match spanNe ']' rest with
        | ([], _) => none
        | (tgt, pr :: qr :: rest2) =>
          if pr = ']' ∧ qr = ']' then some (tgt, ']', rest2) else none
        | (_, _) => none
    else none
  | _ => none

/-- BLOCK_LINK_PATTERN: a double-parenthesis span not preceded by a
    backtick or a hash sign. -/
def matchBlockRef (prev : Option Char) (s : Chars) :
    Option (Chars × Char × Chars) :=
  match s with
  | a :: b :: rest =>
    if a = '(' ∧ b = '(' then
      if prev = some '\x60' ∨ prev = some '#' then none
      else
        match spanNe ')' rest with
        | ([], _) => none
        | (tgt, pr :: qr :: rest2) =>
          if pr = ')' ∧ qr = ')' then some (tgt, ')', rest2) else none
        | (_, _) => none
    else none
  | _ => none

/-- The final lookbehind of TAG_LINK_PATTERN tests the character just
    before the end of the match, i.e. the last matched character. -/
def lastIsTick (matched : Chars) : Bool := matched.getLast? == some '\x60'

/-- TAG_LINK_PATTERN: a hash sign not preceded by a backtick, followed by
    either a word run (group one) or a double-bracketed span (group two),
    then the trailing lookbehind on the last matched character. -/
def matchTag (prev : Option Char) (s : Chars) :
    Option ((Chars × Chars) × Char × Chars) :=
  match s with
  | c :: rest =>
    if c = '#' then
      if prev = some '\x60' then none
      else
        match spanWord rest with
        | (w@(_ :: _), rest2) =>
          if lastIsTick ('#' :: w) then none
          else some ((w, []), w.getLastD '#', rest2)
        | ([], _) =>
          match rest with
          | a :: b :: rest2 =>
            if a = '[' ∧ b = '[' then
              match spanNe ']' rest2 with
              | ([], _) => none
              | (tgt, pr :: qr :: rest3) =>
                if pr = ']' ∧ qr = ']' then
                  if lastIsTick ('#' :: '[' :: '[' :: (tgt ++ [']', ']'])) then
                    none
                  else some (([], tgt), ']', rest3)
                else none
              | (_, _) => none
            else none
          | _ => none
    else none
  | [] => none

/-- Modelled from the spec: the resource-link pattern of the Line class is
    absent from src/line.py (its tests in tests/test_line.py and the
    caller Block.resource_links remain).  Per the spec, markdown
    inline-link syntax [label](target) is matched, with a leading
    exclamation mark selecting the embed form; the label is required and
    must be non-empty. -/
def matchResource (_prev : Option Char) (s : Chars) :
    Option ((Bool × Chars × Chars) × Char × Chars) :=
  match s with
  | c :: rest =>
    let parseBody : Chars → Option ((Chars × Chars) × Chars) := fun body =>
      match spanNe ']' body with
      | ([], _) => none
      | (label, pr :: rest2) =>
        if pr = ']' then
          match rest2 with
          | q :: rest3 =>
            if q = '(' then
              match spanNe ')' rest3 with
              | ([], _) => none
              | (tgt, rr :: rest4) =>
                if rr = ')' then some ((label, tgt), rest4) else none
              | (_, _) => none
            else none
          | [] => none
        else none
      | (_, _) => none
    if c = '!' then
      match rest with
      | d :: rest1 =>
        if d = '[' then
          match parseBody rest1 with
          | some ((label, tgt), rest4) => some ((true, label, tgt), ')', rest4)
          | none => none
        else none
      | [] => none
    else if c = '[' then
      match parseBody rest with
      | some ((label, tgt), rest4) => some ((false, label, tgt), ')', rest4)
      | none => none
    else none
  | [] => none

/-- Line.links: page links found in the content. -/
def Line.links (l : Line) : List DirectLink :=
  (scanAll matchDirect l.content).map DirectLink.to_page

/-- Line.tag_links: tag links found in the content.  The loop binds the
    groups as (as_link, as_word) — note the source swaps the names, so the
    Python expression `as_word if as_word else as_link` prefers the
    bracketed group and falls back to the word group. -/
def Line.tag_links (l : Line) : List DirectLink :=
  (scanAll matchTag l.content).map
    (fun g => DirectLink.as_tag (if g.2 ≠ [] then g.2 else g.1))

/-- Models uuid.UUID(text): strip urn:/uuid: markers, surrounding braces
    and dashes, then require exactly 32 hexadecimal digits.  (The
    idiosyncrasies of int(text, 16) — signs, 0x markers, underscore
    grouping — are not modelled; no theorem feeds such inputs.) -/
def uuidParse (s : Chars) : Option Chars :=
  let s1 := (splitOnSep (strC ("urn:")) s).flatten
  let s2 := (splitOnSep (strC ("uuid:")) s1).flatten
  let s3 := (s2.dropWhile (fun c => c == '\x7b' || c == '\x7d')).reverse
  let s4 := (s3.dropWhile (fun c => c == '\x7b' || c == '\x7d')).reverse
  let s5 := s4.filter (fun c => !(c == '-'))
  if s5.length = 32 ∧ s5.all (fun c =>
      c.isDigit || decide ('a' ≤ c ∧ c ≤ 'f') || decide ('A' ≤ c ∧ c ≤ 'F'))
  then some (pyLower s5)
  else none

/-- Line.block_links: block references found in the content; each target
    must parse as a UUID, otherwise construction raises. -/
def Line.block_links (l : Line) : Except Err (List BlockLink) :=
  (scanAll matchBlockRef l.content).foldr
    (fun t acc =>
      match uuidParse t with
      | some u => acc.map (fun xs => ⟨u⟩ :: xs)
      | none => Except.error Err.invalidUuid)
    (Except.ok [])

/-- Modelled from the spec: Line.resource_links is absent from
    src/line.py.  Each match of the inline-link pattern is built into a
    ResourceLink (running the target validator from src/link.py), errors
    propagating. -/
def Line.resource_links (l : Line) : Except Err (List ResourceLink) :=
  (scanAll matchResource l.content).foldr
    (fun g acc =>
      match mkResourceLink g.2.2 g.2.1 g.1 with
      | Except.ok r => acc.map (fun xs => r :: xs)
      | Except.error e => Except.error e)
    (Except.ok [])

/- Block: src/rgb_logseq/block.py -/

/-- A block and its children.  In the source, parent is declared with
    default None and is never assigned anywhere in the program, and
    branches starts empty and is appended to by find_branches. -/
inductive Block where
  | mk (lines : List Line) (properties : List (Chars × Property))
       (has_code_block : Bool) (directive : Chars)
       (parent : Option Block) (branches : List Block)

def Block.lines : Block → List Line
  | .mk ls _ _ _ _ _ => ls

def Block.properties : Block → List (Chars × Property)
  | .mk _ ps _ _ _ _ => ps

def Block.has_code_block : Block → Bool
  | .mk _ _ h _ _ _ => h

def Block.directive : Block → Chars
  | .mk _ _ _ d _ _ => d

def Block.parent : Block → Option Block
  | .mk _ _ _ _ p _ => p

def Block.branches : Block → List Block
  | .mk _ _ _ _ _ b => b

instance : Inhabited Block := ⟨Block.mk [] [] false [] none []⟩

/-- Append a block to the branches list (the in-place list append of the
    source). -/
def Block.addBranch : Block → Block → Block
  | .mk ls ps h d p br, nb => .mk ls ps h d p (br ++ [nb])

/-- Ordered mapping lookup (Python dict access by key). -/
def alookup : List (Chars × Property) → Chars → Option Property
  | [], _ => none
  | (k, v) :: rest, key => if k = key then some v else alookup rest key

/-- Python dict insertion: replace in place when the key exists, append
    otherwise. -/
def upsert : List (Chars × Property) → Chars → Property →
    List (Chars × Property)
  | [], k, v => [(k, v)]
  | (k1, v1) :: rest, k, v =>
    if k1 = k then (k, v) :: rest else (k1, v1) :: upsert rest k v

/-- Block.depth: the depth of the first line.  (The source indexes
    lines[0]; blocks are only ever built from non-empty runs.) -/
def Block.depth (b : Block) : Nat := (b.lines.headD default).depth

/-- Block.content: newline-joined content of lines flagged as content. -/
def joinNl : List Chars → Chars
  | [] => []
  | [x] => x
  | x :: xs => x ++ '\n' :: joinNl xs

/-- Block.content from the source: no code-fence state is tracked; every
    line whose is_content flag holds contributes. -/
def Block.content (b : Block) : Chars :=
  joinNl ((b.lines.filter Line.is_content).map Line.content)

/-- Block.raw: newline-joined raw text of all lines. -/
def Block.raw (b : Block) : Chars := joinNl (b.lines.map Line.raw)

/-- The shared walk of Block.links / tag_links (and, with effects, of
    block_links / resource_links): toggle the in-code flag on each fence
    line, then gather from the line only when the flag is off. -/
def gatherSkip {α : Type} (f : Line → List α) : List Line → Bool → List α
  | [], _ => []
  | l :: rest, inCode =>
    let inCode1 := if l.is_code_fence then !inCode else inCode
    (if inCode1 then [] else f l) ++ gatherSkip f rest inCode1

/-- The same walk for effectful per-line extractors. -/
def gatherSkipE {α : Type} (f : Line → Except Err (List α)) :
    List Line → Bool → Except Err (List α)
  | [], _ => Except.ok []
  | l :: rest, inCode =>
    let inCode1 := if l.is_code_fence then !inCode else inCode
    if inCode1 then gatherSkipE f rest inCode1
    else
      match f l with
      | Except.error e => Except.error e
      | Except.ok xs =>
        match gatherSkipE f rest inCode1 with
        | Except.error e => Except.error e
        | Except.ok ys => Except.ok (xs ++ ys)

/-- Block.links. -/
def Block.links (b : Block) : List DirectLink :=
  gatherSkip Line.links b.lines false

/-- Block.tag_links. -/
def Block.tag_links (b : Block) : List DirectLink :=
  gatherSkip Line.tag_links b.lines false

/-- Block.block_links. -/
def Block.block_links (b : Block) : Except Err (List BlockLink) :=
  gatherSkipE Line.block_links b.lines false

/-- Block.resource_links (the per-line extraction is modelled from the
    spec, see Line.resource_links). -/
def Block.resource_links (b : Block) : Except Err (List ResourceLink) :=
  gatherSkipE Line.resource_links b.lines false

/-- Block.is_public. -/
def Block.is_public (b : Block) : Bool :=
  match alookup b.properties (strC ("public")) with
  | none => false
  | some p => p.is_true

/-- Loop state of from_lines. -/
structure FLState where
  hasCode : Bool
  inCode : Bool
  inDirective : Bool
  directive : Chars
  props : List (Chars × Property)

/-- The per-line walk of from_lines: depth check first, then the fence
    toggle, then the property / directive-opener / directive-closer
    chain exactly as in the source (the fence mask gates only the
    property branch). -/
def flGo (d : Nat) : List Line → FLState → Except Err FLState
  | [], st => Except.ok st
  | l :: rest, st =>
    if l.depth ≠ d then Except.error Err.depthMismatch
    else
      let hasCode := st.hasCode || l.is_code_fence
      let inCode := if l.is_code_fence then !st.inCode else st.inCode
      if l.is_property && !inCode then
        match l.as_property with
        | Except.error e => Except.error e
        | Except.ok p =>
          flGo d rest ⟨hasCode, inCode, st.inDirective, st.directive,
            upsert st.props p.field p⟩
      else if l.is_directive_opener then
        match l.directiveE with
        | Except.error e => Except.error e
        | Except.ok dd => flGo d rest ⟨hasCode, inCode, true, dd, st.props⟩
      else if l.is_directive_closer then
        if !st.inDirective then Except.error Err.unopenedDirective
        else flGo d rest ⟨hasCode, inCode, false, st.directive, st.props⟩
      else flGo d rest ⟨hasCode, inCode, st.inDirective, st.directive, st.props⟩

/-- from_lines: create a Block from a run of Lines, or fail with the
    error the source raises (depth mismatch, property format, directive
    balance, unclosed fence or directive). -/
def from_lines (lines : List Line) : Except Err Block :=
  match lines with
  | [] => Except.error Err.emptyLines
  | l0 :: rest =>
    match flGo l0.depth (l0 :: rest) ⟨false, false, false, [], []⟩ with
    | Except.error e => Except.error e
    | Except.ok st =>
      if st.inCode then Except.error Err.unclosedCodeBlock
      else if st.inDirective then Except.error Err.unclosedDirective
      else Except.ok (Block.mk lines st.props st.hasCode st.directive none [])

/-- One iteration of find_branches.  The source sets branch_parent to the
    most recent root (branches[-1]) and runs
    `while branch_parent and branch_parent.depth >= block.depth:
       branch_parent = branch_parent.parent`.
    The parent field is declared with default None and no statement in the
    program ever assigns it, so the first loop iteration either keeps the
    last root (its depth is smaller) or steps to its parent None and stops.
    The walk is unrolled accordingly, and the in-place branches.append on
    the surviving candidate is modelled by replacing the last root. -/
def fbStep (branches : List Block) (block : Block) : List Block :=
  match branches.getLast? with
  | none => branches ++ [block]
  | some lastB =>
    if lastB.depth ≥ block.depth then branches ++ [block]
    else branches.dropLast ++ [lastB.addBranch block]

/-- find_branches from block.py. -/
def find_branches (blocks : List Block) : List Block :=
  blocks.foldl fbStep []

/-- An ordered, nested collection of blocks (class BlockTree).  The class
    defines no list protocol: it is not subscriptable and has no length. -/
structure BlockTree where
  branches : List Block

/-- str.splitlines restricted to the newline character: split at every
    newline, with no trailing empty segment for a trailing newline. -/
def splitLines (s : Chars) : List Chars :=
  if s = [] then []
  else
    let parts := splitOnSep ['\n'] s
    if s.getLast? = some '\n' then parts.dropLast else parts

/-- The line walk of BlockTree.from_text: an opener closes the current
    run; a deeper line with no open run is a BlockDepthError. -/
def fromTextGo : List Line → List Block → List Line →
    Except Err (List Block)
  | [], blocks, run =>
    if run = [] then Except.ok blocks
    else
      match from_lines run with
      | Except.error e => Except.error e
      | Except.ok b => Except.ok (blocks ++ [b])
  | l :: rest, blocks, run =>
    if l.is_block_opener then
      if run = [] then fromTextGo rest blocks [l]
      else
        match from_lines run with
        | Except.error e => Except.error e
        | Except.ok b => fromTextGo rest (blocks ++ [b]) [l]
    else if l.depth > 0 ∧ run = [] then Except.error Err.firstLineContinuation
    else fromTextGo rest blocks (run ++ [l])

/-- BlockTree.from_text. -/
def BlockTree.from_text (source : Chars) : Except Err BlockTree :=
  if source.length = 0 then
    match from_lines [parse_line source] with
    | Except.error e => Except.error e
    | Except.ok b => Except.ok ⟨[b]⟩
  else
    match fromTextGo ((splitLines source).map parse_line) [] [] with
    | Except.error e => Except.error e
    | Except.ok blocks => Except.ok ⟨find_branches blocks⟩

/-- find_blocks from block.py. -/
def find_blocks (source : Chars) : Except Err BlockTree :=
  BlockTree.from_text source

/- Page: src/rgb_logseq/page.py -/

structure Page where
  blocks : List Block
  name : Chars
  properties : List (Chars × Property)
  is_placeholder : Bool := false

/-- Page.is_public. -/
def Page.is_public (p : Page) : Bool :=
  match alookup p.properties (strC ("public")) with
  | none => false
  | some pr => pr.is_true

/-- Failures of parse_page_text: a parse error re-raised from
    find_blocks, or the TypeError of the subscript expression. -/
inductive PgErr where
  | parse (e : Err)
  | typeErr
  deriving DecidableEq, Repr

/-- parse_page_text from page.py.  After find_blocks succeeds it
    evaluates blocks[0]; find_blocks returns a BlockTree, which defines
    no __getitem__, so the subscript raises TypeError on every
    successfully parsed source. -/
def parse_page_text (text _nm : Chars) : Except PgErr Page :=
  match find_blocks text with
  | Except.error e => Except.error (PgErr.parse e)
  | Except.ok _tree => Except.error PgErr.typeErr

/- Spec-side formulations used to state the claims. -/

/-- Number of code-fence lines in a list of lines. -/
def fenceCount (lines : List Line) : Nat :=
  (lines.filter Line.is_code_fence).length

/-- A line position lies inside an active code-fence region when the
    number of fence lines up to and including it is odd (the fence line
    that opens a region counts as inside, the one that closes it as
    outside, matching the toggle-then-check walk of the source). -/
def insideFenceAt (b : Bool) (lines : List Line) (i : Nat) : Bool :=
  b ^^ decide (fenceCount (lines.take (i + 1)) % 2 = 1)

/-- Per-line extraction with every line inside an active fence region
    skipped, stated positionally over the line sequence. -/
def fenceSkipped {α : Type} (f : Line → List α) (lines : List Line) : List α :=
  ((List.range lines.length).map
    (fun i => if insideFenceAt false lines i then [] else f (lines.getD i default))).flatten

/-- The content view the claim describes: the fence-skipping walk of the
    link-aggregation views applied to content inclusion. -/
def contentFenceSkip (b : Block) : Chars :=
  joinNl (gatherSkip (fun l => if l.is_content then [l.content] else []) b.lines false)

/-- Case-insensitive equality of two strings. -/
def eqCaseInsensitive (a b : Chars) : Bool := pyLower a == pyLower b

/- Closed evaluation theorems. -/

/-- C8: a block built from the quoted run has content Hello! and
    directive QUOTE; dropping the closing line raises the
    unclosed-directive error; a closer with no prior opener raises the
    unbalanced-close error. -/
theorem c8_directive_blocks :
    (from_lines (parse_lines
        [strC ("- #+BEGIN_QUOTE"), strC ("  Hello!"), strC ("  #+END_QUOTE")])).map
      (fun b => (Block.content b, Block.directive b)) =
      Except.ok (strC ("Hello!"), strC ("QUOTE"))
    ∧ from_lines (parse_lines [strC ("- #+BEGIN_QUOTE"), strC ("  Hello!")]) =
      Except.error Err.unclosedDirective
    ∧ from_lines (parse_lines [strC ("- #+END_QUOTE")]) =
      Except.error Err.unopenedDirective := by
  refine ⟨rfl, rfl, rfl⟩

/-- C2 (code behaviour at the failing input): on the three-level source,
    find_blocks attaches both the depth-2 block and the depth-3 block
    directly to the depth-1 root; the depth-3 block does not become a
    branch of the depth-2 block. -/
theorem c2_flat_attachment :
    find_blocks (strC ("- A\n\t- B\n\t\t- C")) =
      Except.ok ⟨[Block.mk [⟨strC ("- A")⟩] [] false [] none
        [Block.mk [⟨strC ("\t- B")⟩] [] false [] none [],
         Block.mk [⟨strC ("\t\t- C")⟩] [] false [] none []]]⟩ := by
  rfl

/-- C4 (code behaviour at the failing input): find_blocks succeeds on the
    source, yet parse_page_text fails with the TypeError of subscripting
    the BlockTree instead of returning a Page. -/
theorem c4_type_error :
    parse_page_text (strC ("- hello")) (strC ("p")) = Except.error PgErr.typeErr
    ∧ (find_blocks (strC ("- hello"))).isOk = true := by
  refine ⟨rfl, rfl⟩

/-- C6 (code behaviour at the failing input): constructing a resource
    link with a valid assets target and an empty display label succeeds;
    the only validator in src/link.py checks the target. -/
theorem c6_empty_label_accepted :
    mkResourceLink (strC ("../assets/pic.png")) [] false =
      Except.ok ⟨strC ("../assets/pic.png"), [], false⟩ := by
  rfl

/-- The block of the C1 counterexample: a run whose middle line lies
    inside a code-fence region. -/
def c1Block : Block :=
  (from_lines (parse_lines
    [strC ("- ```"), strC ("  hello"), strC ("  ```")])).toOption.getD default

/-- C1 counterexample: Block.content includes the line inside the fence
    region, so it differs from the fence-skipping walk that the
    link-aggregation views apply. -/
theorem c1_content_ignores_fences :
    Block.content c1Block = strC ("```\nhello\n```")
    ∧ contentFenceSkip c1Block = strC ("```")
    ∧ Block.content c1Block ≠ contentFenceSkip c1Block := by
  refine ⟨rfl, rfl, by decide⟩

/-- C5 counterexample: on text whose value side carries a further
    separator occurrence, loads raises the too-many-values unpacking
    error instead of splitting at the first occurrence. -/
theorem c5_second_separator_fails :
    Property.loads (strC ("a:: b:: c")) = Except.error Err.tooManyValues
    ∧ Property.loads (strC ("a:: b:: c")) ≠
        Except.ok ⟨strC ("a:: b:: c"), strC ("a"), strC ("b:: c")⟩ := by
  refine ⟨rfl, by decide⟩

/-- C7 counterexample: a run whose second line has a different depth
    fails with the unbalanced-close error raised by its first line, not
    with the depth-mismatch error the claim names. -/
theorem c7_earlier_error_wins :
    from_lines (parse_lines [strC ("- #+END_Q"), strC ("\t\t- y")]) =
      Except.error Err.unopenedDirective
    ∧ (parse_line (strC ("\t\t- y"))).depth ≠ (parse_line (strC ("- #+END_Q"))).depth
    ∧ Err.unopenedDirective ≠ Err.depthMismatch := by
  refine ⟨rfl, by decide, by decide⟩

/-- C9 counterexample: a backtick immediately after the matched token
    does not exclude the match — the trailing lookbehind of the pattern
    tests the last matched character, never the following one. -/
theorem c9_trailing_backtick_kept :
    Line.tag_links (parse_line (strC ("#tag\x60"))) =
      [DirectLink.as_tag (strC ("tag"))] := by
  rfl

/- C10: is_public on blocks and pages. -/

lemma true_values_lower : ∀ t ∈ TRUE_VALUES, pyLower t = t := by
  intro t ht
  fin_cases ht <;> rfl

lemma is_true_iff (p : Property) :
    p.is_true = true ↔ ∃ t ∈ TRUE_VALUES, eqCaseInsensitive p.value t = true := by
  unfold Property.is_true eqCaseInsensitive
  constructor
  · intro h
    have hm : pyLower p.value ∈ TRUE_VALUES := by
      simpa [List.elem_iff] using h
    refine ⟨pyLower p.value, hm, ?_⟩
    rw [true_values_lower _ hm]
    simp
  · rintro ⟨t, ht, he⟩
    have hv : pyLower p.value = pyLower t := by
      simpa using he
    rw [hv, true_values_lower t ht]
    simpa [List.elem_iff] using ht

/-- C10: when no public key is present Block.is_public and Page.is_public
    return false without error; when the key is present, is_public equals
    case-insensitive membership of the property value in the fixed truthy
    set. -/
theorem c10_is_public (b : Block) (pg : Page) :
    (alookup b.properties (strC ("public")) = none → b.is_public = false)
    ∧ (∀ p, alookup b.properties (strC ("public")) = some p →
        (b.is_public = true ↔
          ∃ t ∈ TRUE_VALUES, eqCaseInsensitive p.value t = true))
    ∧ (alookup pg.properties (strC ("public")) = none → pg.is_public = false)
    ∧ (∀ p, alookup pg.properties (strC ("public")) = some p →
        (pg.is_public = true ↔
          ∃ t ∈ TRUE_VALUES, eqCaseInsensitive p.value t = true)) := by
  refine ⟨?_, ?_, ?_, ?_⟩
  · intro h; simp [Block.is_public, h]
  · intro p h; rw [Block.is_public, h]; exact is_true_iff p
  · intro h; simp [Page.is_public, h]
  · intro p h; rw [Page.is_public, h]; exact is_true_iff p

/-- The public property used by the C10 witness. -/
def pubProp : Property :=
  ⟨strC ("public:: YES"), strC ("public"), strC ("YES")⟩

def pubBlock : Block :=
  Block.mk [] [(strC ("public"), pubProp)] false [] none []

def pubPage : Page :=
  ⟨[], strC ("p"), [(strC ("public"), pubProp)], false⟩

/-- Witness for C10 at a concrete block and page carrying public:: YES. -/
theorem c10_is_public_witness :
    Block.is_public pubBlock = true ∧ Page.is_public pubPage = true := by
  have h := c10_is_public pubBlock pubPage
  exact ⟨(h.2.1 pubProp rfl).mpr ⟨strC ("yes"), by decide, by decide⟩,
         (h.2.2.2 pubProp rfl).mpr ⟨strC ("yes"), by decide, by decide⟩⟩

/- C5: Property.loads splitting behaviour. -/

lemma breakOnFirst_none_of (sep : Chars) :
    ∀ s, containsSub sep s = false → breakOnFirst sep s = none := by
  intro s
  induction s with
  | nil =>
    intro h
    simp only [containsSub, List.isEmpty_iff] at h
    simp [breakOnFirst, List.isEmpty_iff, h]
  | cons c rest ih =>
    intro h
    simp only [containsSub, Bool.or_eq_false_iff] at h
    simp [breakOnFirst, h.1, ih h.2]

lemma splitOnSepGo_of_none (sep s : Chars) (h : breakOnFirst sep s = none) :
    ∀ fuel, splitOnSepGo sep fuel s = [s] := by
  intro fuel
  cases fuel <;> simp [splitOnSepGo, h]

/-- The property separator cannot straddle the boundary of the text
    before it: its last character differs from its first two. -/
lemma breakOnFirst_prop (rest : Chars) :
    ∀ f, containsSub MARK_PROPERTY f = false →
    breakOnFirst MARK_PROPERTY (f ++ MARK_PROPERTY ++ rest) = some (f, rest) := by
  intro f
  induction f with
  | nil =>
    intro _
    simp [MARK_PROPERTY, breakOnFirst, strStarts]
  | cons c f2 ih =>
    intro h
    simp only [containsSub, Bool.or_eq_false_iff] at h
    have hs : strStarts MARK_PROPERTY (c :: (f2 ++ (MARK_PROPERTY ++ rest))) = false := by
      rcases f2 with _ | ⟨d, f3⟩
      · simp [MARK_PROPERTY, strStarts]
      · rcases f3 with _ | ⟨e, f4⟩
        · simp [MARK_PROPERTY, strStarts]
        · have h1 := h.1
          simp only [MARK_PROPERTY, strStarts, List.cons_append,
            Bool.and_eq_false_iff] at h1 ⊢
          tauto
    have ih2 : breakOnFirst MARK_PROPERTY (f2 ++ (MARK_PROPERTY ++ rest)) =
        some (f2, rest) := by
      rw [← List.append_assoc]
      exact ih h.2
    simp only [List.cons_append, List.append_assoc]
    simp [breakOnFirst, hs, ih2]

lemma lstrip_prop_append (rest : Chars) :
    ∀ f, lstripWs (f ++ MARK_PROPERTY ++ rest) = lstripWs f ++ MARK_PROPERTY ++ rest := by
  intro f
  induction f with
  | nil =>
    simp only [List.nil_append]
    have hc : (':' : Char).isWhitespace = false := by decide
    simp [lstripWs, MARK_PROPERTY, List.dropWhile_cons, hc]
  | cons c f2 ih =>
    by_cases hc : Char.isWhitespace c
    · simp only [List.cons_append, List.append_assoc] at ih ⊢
      simp [lstripWs, List.dropWhile_cons, hc] at ih ⊢
      exact ih
    · simp only [List.cons_append, List.append_assoc]
      simp [lstripWs, List.dropWhile_cons, hc]

lemma containsSub_dropWhile (sep : Chars) (p : Char → Bool) :
    ∀ s, containsSub sep s = false → containsSub sep (s.dropWhile p) = false := by
  intro s
  induction s with
  | nil => intro h; simpa using h
  | cons c rest ih =>
    intro h
    simp only [containsSub, Bool.or_eq_false_iff] at h
    by_cases hc : p c
    · simp [List.dropWhile_cons, hc, ih h.2]
    · simp [List.dropWhile_cons, hc, containsSub, h.1, h.2]

lemma splitOnSep_prop_pair (f v : Chars)
    (hf : containsSub MARK_PROPERTY f = false)
    (hv : containsSub MARK_PROPERTY v = false) :
    ∀ fuel, splitOnSepGo MARK_PROPERTY (fuel + 1) (f ++ MARK_PROPERTY ++ v) = [f, v] := by
  intro fuel
  simp only [splitOnSepGo, breakOnFirst_prop v f hf]
  rw [splitOnSepGo_of_none _ _ (breakOnFirst_none_of _ _ hv) fuel]

lemma splitOnSepGo_succ (sep : Chars) (fuel : Nat) (s : Chars) :
    splitOnSepGo sep (fuel + 1) s =
      match breakOnFirst sep s with
      | none => [s]
      | some (pre, post) => pre :: splitOnSepGo sep fuel post := rfl

lemma splitOnSepGo_prop_triple (f v w : Chars)
    (hf : containsSub MARK_PROPERTY f = false)
    (hv : containsSub MARK_PROPERTY v = false)
    (hw : containsSub MARK_PROPERTY w = false) :
    ∀ fuel, splitOnSepGo MARK_PROPERTY (fuel + 1 + 1)
      (f ++ MARK_PROPERTY ++ (v ++ MARK_PROPERTY ++ w)) = [f, v, w] := by
  intro fuel
  have h1 : splitOnSepGo MARK_PROPERTY (fuel + 1 + 1)
      (f ++ MARK_PROPERTY ++ (v ++ MARK_PROPERTY ++ w)) =
      f :: splitOnSepGo MARK_PROPERTY (fuel + 1) (v ++ MARK_PROPERTY ++ w) := by
    rw [splitOnSepGo_succ, breakOnFirst_prop (v ++ MARK_PROPERTY ++ w) f hf]
  rw [h1, splitOnSep_prop_pair v w hv hw fuel]

/-- C5 (amended): loads succeeds exactly when the separator occurs once in
    the left-stripped text — field is the text before it trimmed of
    leading whitespace, value the text after it unchanged; it fails with
    the not-enough-values unpacking error when the separator is absent and
    with the too-many-values error when it occurs more than once. -/
theorem c5_loads_splits (f v w : Chars) :
    (containsSub MARK_PROPERTY f = false → containsSub MARK_PROPERTY v = false →
      Property.loads (f ++ MARK_PROPERTY ++ v) =
        Except.ok ⟨f ++ MARK_PROPERTY ++ v, lstripWs f, v⟩)
    ∧ (containsSub MARK_PROPERTY f = false →
      Property.loads f = Except.error Err.notEnoughValues)
    ∧ (containsSub MARK_PROPERTY f = false → containsSub MARK_PROPERTY v = false →
       containsSub MARK_PROPERTY w = false →
      Property.loads (f ++ MARK_PROPERTY ++ (v ++ MARK_PROPERTY ++ w)) =
        Except.error Err.tooManyValues) := by
  refine ⟨?_, ?_, ?_⟩
  · intro hf hv
    have hlf : containsSub MARK_PROPERTY (lstripWs f) = false :=
      containsSub_dropWhile MARK_PROPERTY Char.isWhitespace f hf
    unfold Property.loads
    rw [lstrip_prop_append v f]
    simp only [splitOnSep]
    rw [splitOnSep_prop_pair (lstripWs f) v hlf hv]
  · intro hf
    have hlf : containsSub MARK_PROPERTY (lstripWs f) = false :=
      containsSub_dropWhile MARK_PROPERTY Char.isWhitespace f hf
    unfold Property.loads
    simp only [splitOnSep]
    rw [splitOnSepGo_of_none _ _ (breakOnFirst_none_of _ _ hlf)]
  · intro hf hv hw
    have hlf : containsSub MARK_PROPERTY (lstripWs f) = false :=
      containsSub_dropWhile MARK_PROPERTY Char.isWhitespace f hf
    unfold Property.loads
    rw [lstrip_prop_append (v ++ MARK_PROPERTY ++ w) f]
    simp only [splitOnSep]
    rw [show (lstripWs f ++ MARK_PROPERTY ++ (v ++ MARK_PROPERTY ++ w)).length + 1 =
        ((lstripWs f ++ MARK_PROPERTY ++ (v ++ MARK_PROPERTY ++ w)).length - 1) + 1 + 1
      from by simp [List.length_append, MARK_PROPERTY]; omega]
    rw [splitOnSepGo_prop_triple (lstripWs f) v w hlf hv hw]

/-- Witness for C5 at concrete property texts. -/
theorem c5_loads_splits_witness :
    Property.loads (strC ("  title") ++ MARK_PROPERTY ++ strC ("My Page")) =
      Except.ok ⟨strC ("  title") ++ MARK_PROPERTY ++ strC ("My Page"),
        lstripWs (strC ("  title")), strC ("My Page")⟩
    ∧ Property.loads (strC ("  title")) = Except.error Err.notEnoughValues
    ∧ Property.loads (strC ("  title") ++ MARK_PROPERTY ++
        (strC ("My Page") ++ MARK_PROPERTY ++ strC ("x"))) =
      Except.error Err.tooManyValues := by
  obtain ⟨h1, h2, h3⟩ := c5_loads_splits (strC ("  title")) (strC ("My Page")) (strC ("x"))
  exact ⟨h1 (by decide) (by decide), h2 (by decide),
         h3 (by decide) (by decide) (by decide)⟩

/- C7: depth checking in from_lines. -/

lemma flGo_cons_mismatch (d : Nat) (l : Line) (rest : List Line) (st : FLState)
    (h : l.depth ≠ d) :
    flGo d (l :: rest) st = Except.error Err.depthMismatch := by
  simp [flGo, h]

lemma flGo_cons_clean (d : Nat) (l : Line) (rest : List Line) (st : FLState)
    (hd : l.depth = d) (h1 : l.is_property = false)
    (h2 : l.is_directive_opener = false) (h3 : l.is_directive_closer = false) :
    flGo d (l :: rest) st = flGo d rest ⟨st.hasCode || l.is_code_fence,
      if l.is_code_fence then !st.inCode else st.inCode,
      st.inDirective, st.directive, st.props⟩ := by
  simp [flGo, hd, h1, h2, h3]

lemma flGo_cons_ok_tail (d : Nat) (l : Line) (rest : List Line) (st st1 : FLState)
    (h : flGo d (l :: rest) st = Except.ok st1) :
    ∃ st2, flGo d rest st2 = Except.ok st1 := by
  simp only [flGo] at h
  repeat' split at h
  all_goals first
    | exact ⟨_, h⟩
    | exact absurd h (by simp)

lemma flGo_ok_depth (d : Nat) :
    ∀ (ls : List Line) (st st1 : FLState), flGo d ls st = Except.ok st1 →
      ∀ l ∈ ls, l.depth = d := by
  intro ls
  induction ls with
  | nil => simp
  | cons l rest ih =>
    intro st st1 h l2 hl2
    by_cases hd : l.depth = d
    · rcases List.mem_cons.mp hl2 with rfl | hmem
      · exact hd
      · obtain ⟨st2, h2⟩ := flGo_cons_ok_tail d l rest st st1 h
        exact ih st2 st1 h2 l2 hmem
    · rw [flGo_cons_mismatch d l rest st hd] at h
      exact absurd h (by simp)

lemma flGo_clean_prefix (d : Nat) (l : Line) (hl : l.depth ≠ d) :
    ∀ (pre post : List Line) (st : FLState),
    (∀ p ∈ pre, p.depth = d ∧ p.is_property = false ∧
      p.is_directive_opener = false ∧ p.is_directive_closer = false) →
    flGo d (pre ++ l :: post) st = Except.error Err.depthMismatch := by
  intro pre
  induction pre with
  | nil =>
    intro post st _
    exact flGo_cons_mismatch d l post st hl
  | cons p pre2 ih =>
    intro post st hclean
    obtain ⟨hd, h1, h2, h3⟩ := hclean p (List.mem_cons_self p pre2)
    rw [List.cons_append, flGo_cons_clean d p (pre2 ++ l :: post) st hd h1 h2 h3]
    exact ih post _ (fun q hq => hclean q (List.mem_cons_of_mem p hq))

lemma from_lines_ok_shape (lines : List Line) (b : Block)
    (h : from_lines lines = Except.ok b) : Block.lines b = lines := by
  cases lines with
  | nil => simp [from_lines] at h
  | cons l0 rest =>
    simp only [from_lines] at h
    split at h
    · exact absurd h (by simp)
    · split at h
      · exact absurd h (by simp)
      · split at h
        · exact absurd h (by simp)
        · cases h
          rfl

lemma from_lines_ok_flGo (l0 : Line) (rest : List Line) (b : Block)
    (h : from_lines (l0 :: rest) = Except.ok b) :
    ∃ st1, flGo l0.depth (l0 :: rest) ⟨false, false, false, [], []⟩ =
      Except.ok st1 := by
  simp only [from_lines] at h
  split at h
  · exact absurd h (by simp)
  · exact ⟨_, by assumption⟩

/-- C7 (amended): a block built from a run of equal-depth lines has that
    depth; a run containing a line of differing depth always fails, and it
    fails with the depth-mismatch error whenever every line before the
    mismatching one is an ordinary line (no property line, no directive
    marker) — an earlier failing line, such as an unmatched directive
    closer, reports its own error first. -/
theorem c7_depth_enforced (lines : List Line) (l0 : Line) (rest : List Line)
    (b : Block) (d : Nat) (hsh : lines = l0 :: rest) :
    ((∀ l ∈ lines, l.depth = d) → from_lines lines = Except.ok b →
      Block.depth b = d)
    ∧ ((∃ l ∈ lines, l.depth ≠ l0.depth) →
      ∃ e, from_lines lines = Except.error e)
    ∧ (∀ pre l post, lines = pre ++ l :: post →
        (∀ p ∈ pre, p.depth = l0.depth ∧ p.is_property = false ∧
          p.is_directive_opener = false ∧ p.is_directive_closer = false) →
        l.depth ≠ l0.depth →
        from_lines lines = Except.error Err.depthMismatch) := by
  subst hsh
  refine ⟨?_, ?_, ?_⟩
  · intro hall hok
    have hl := from_lines_ok_shape _ b hok
    show (b.lines.headD default).depth = d
    rw [hl]
    exact hall l0 (by simp)
  · rintro ⟨l, hl, hne⟩
    cases hr : from_lines (l0 :: rest) with
    | error e => exact ⟨e, rfl⟩
    | ok b2 =>
      obtain ⟨st1, hfl⟩ := from_lines_ok_flGo l0 rest b2 hr
      exact absurd (flGo_ok_depth l0.depth _ _ _ hfl l hl) hne
  · intro pre l post hdecomp hclean hlne
    have hfl : flGo l0.depth (l0 :: rest) ⟨false, false, false, [], []⟩ =
        Except.error Err.depthMismatch := by
      rw [hdecomp]
      exact flGo_clean_prefix l0.depth l hlne pre post _ hclean
    simp [from_lines, hfl]

/-- The successfully built block of the C7 witness. -/
def c7wBlock : Block :=
  (from_lines (parse_lines [strC ("- a"), strC ("  b")])).toOption.getD default

/-- Witness for C7 at concrete runs. -/
theorem c7_depth_enforced_witness :
    Block.depth c7wBlock = 1
    ∧ from_lines (parse_lines [strC ("- a"), strC ("\t- b")]) =
        Except.error Err.depthMismatch := by
  constructor
  · exact (c7_depth_enforced (parse_lines [strC ("- a"), strC ("  b")])
      (parse_line (strC ("- a"))) [parse_line (strC ("  b"))] c7wBlock 1 rfl).1
      (by decide) rfl
  · exact (c7_depth_enforced (parse_lines [strC ("- a"), strC ("\t- b")])
      (parse_line (strC ("- a"))) [parse_line (strC ("\t- b"))] default 1 rfl).2.2
      [parse_line (strC ("- a"))] (parse_line (strC ("\t- b"))) [] rfl
      (by decide) (by decide)

/- C3: resource-link extraction. -/

lemma spanNe_eq (bad : Char) (xs ys : Chars) (h : ∀ c ∈ xs, c ≠ bad) :
    spanNe bad (xs ++ bad :: ys) = (xs, bad :: ys) := by
  induction xs with
  | nil => simp [spanNe]
  | cons c xs2 ih =>
    have hc : c ≠ bad := h c (by simp)
    simp [spanNe, hc, ih (fun q hq => h q (by simp [hq]))]

lemma scanGo_nil {α : Type} (m : Option Char → Chars → Option (α × Char × Chars))
    (fuel : Nat) (prev : Option Char) : scanGo m fuel prev [] = [] := by
  cases fuel <;> rfl

lemma scanGo_cons_match {α : Type}
    (m : Option Char → Chars → Option (α × Char × Chars))
    (fuel : Nat) (prev : Option Char) (c : Char) (rest : Chars)
    (a : α) (lc : Char) (s : Chars) (h : m prev (c :: rest) = some (a, lc, s)) :
    scanGo m (fuel + 1) prev (c :: rest) = a :: scanGo m fuel (some lc) s := by
  simp [scanGo, h]

lemma scanGo_cons_none {α : Type}
    (m : Option Char → Chars → Option (α × Char × Chars))
    (fuel : Nat) (prev : Option Char) (c : Char) (rest : Chars)
    (h : m prev (c :: rest) = none) :
    scanGo m (fuel + 1) prev (c :: rest) = scanGo m fuel (some c) rest := by
  simp [scanGo, h]

lemma matchResource_hit (prev : Option Char) (embed : Bool) (label target : Chars)
    (hlne : label ≠ []) (hl : ∀ c ∈ label, c ≠ ']')
    (htne : target ≠ []) (ht : ∀ c ∈ target, c ≠ ')') :
    matchResource prev
      ((if embed then ['!'] else []) ++ '[' :: (label ++ ']' :: '(' :: (target ++ [')']))) =
      some ((embed, label, target), ')', []) := by
  have e1 : spanNe ']' (label ++ ']' :: '(' :: (target ++ [')'])) =
      (label, ']' :: '(' :: (target ++ [')'])) := spanNe_eq ']' _ _ hl
  have e2 : spanNe ')' (target ++ ')' :: []) = (target, ')' :: []) :=
    spanNe_eq ')' _ _ ht
  rcases label with _ | ⟨lc, lrest⟩
  · exact absurd rfl hlne
  rcases target with _ | ⟨tc, trest⟩
  · exact absurd rfl htne
  simp only [List.cons_append] at e1 e2
  cases embed <;>
    simp only [if_true, if_false, Bool.false_eq_true, List.nil_append,
      List.cons_append, matchResource] <;>
    simp [e1, e2]

/-- The raw text of a one-line block carrying one markdown inline link. -/
def rawRes (embed : Bool) (label target : Chars) : Chars :=
  '-' :: ' ' :: ((if embed then ['!'] else []) ++ '[' :: (label ++ ']' :: '(' :: (target ++ [')'])))

lemma rawRes_content (embed : Bool) (label target : Chars) :
    (parse_line (rawRes embed label target)).content =
      (if embed then ['!'] else []) ++ '[' :: (label ++ ']' :: '(' :: (target ++ [')'])) := by
  cases embed <;> rfl

lemma rawRes_flags (embed : Bool) (label target : Chars) :
    (parse_line (rawRes embed label target)).is_code_fence = false
    ∧ (parse_line (rawRes embed label target)).is_directive_opener = false
    ∧ (parse_line (rawRes embed label target)).is_directive_closer = false := by
  cases embed <;>
    simp [Line.is_code_fence, Line.is_directive_opener, Line.is_directive_closer,
      rawRes_content, MARK_CODE_FENCE, MARK_DIRECTIVE_OPENER,
      MARK_DIRECTIVE_CLOSER, strStarts]

lemma from_lines_single_clean (ln : Line) (h1 : ln.is_property = false)
    (h2 : ln.is_directive_opener = false) (h3 : ln.is_directive_closer = false)
    (h4 : ln.is_code_fence = false) :
    from_lines [ln] = Except.ok (Block.mk [ln] [] false [] none []) := by
  simp [from_lines, flGo, h1, h2, h3, h4]

lemma rawRes_line_links (embed : Bool) (label target : Chars)
    (hlne : label ≠ []) (hl : ∀ c ∈ label, c ≠ ']')
    (htne : target ≠ []) (ht : ∀ c ∈ target, c ≠ ')')
    (hasset : strStarts PATH_ASSETS target = true) :
    Line.resource_links (parse_line (rawRes embed label target)) =
      Except.ok [⟨target, label, embed⟩] := by
  have hm := matchResource_hit none embed label target hlne hl htne ht
  have hmk : mkResourceLink target label embed =
      Except.ok ⟨target, label, embed⟩ := by
    simp [mkResourceLink, hasset]
  unfold Line.resource_links
  rw [rawRes_content]
  cases embed
  · simp only [Bool.false_eq_true, if_false, List.nil_append] at hm ⊢
    rw [scanAll, List.length_cons, scanGo_cons_match _ _ _ _ _ _ _ _ hm,
      scanGo_nil]
    simp [hmk, Except.map]
  · simp only [if_true, List.cons_append] at hm ⊢
    rw [scanAll, List.length_cons, scanGo_cons_match _ _ _ _ _ _ _ _ hm,
      scanGo_nil]
    simp [hmk, Except.map]

/-- C3: a line carrying a markdown inline link [label](target) (or the
    embed form with a leading exclamation mark) yields one resource link
    with that target and label; the embed flag is set exactly for the
    embed form and an assets-path target is flagged as an asset file;
    block-level aggregation over such a line succeeds and returns the
    link. -/
theorem c3_resource_extraction (label target : Chars) (embed : Bool)
    (hlne : label ≠ []) (hl : ∀ c ∈ label, c ≠ ']')
    (ht : ∀ c ∈ target, c ≠ ')')
    (hasset : strStarts PATH_ASSETS target = true)
    (hprop : (parse_line (rawRes embed label target)).is_property = false) :
    Line.resource_links (parse_line (rawRes embed label target)) =
      Except.ok [⟨target, label, embed⟩]
    ∧ ResourceLink.is_asset_file ⟨target, label, embed⟩ = true
    ∧ (from_lines [parse_line (rawRes embed label target)]).bind
        Block.resource_links = Except.ok [⟨target, label, embed⟩] := by
  have htne : target ≠ [] := by
    intro hempty
    rw [hempty] at hasset
    simp [PATH_ASSETS, strStarts] at hasset
  obtain ⟨hfence, hopen, hclose⟩ := rawRes_flags embed label target
  have hline := rawRes_line_links embed label target hlne hl htne ht hasset
  refine ⟨hline, ?_, ?_⟩
  · simp [ResourceLink.is_asset_file, hasset]
  · rw [from_lines_single_clean _ hprop hopen hclose hfence]
    show Block.resource_links _ = _
    simp [Block.resource_links, Block.lines, gatherSkipE, hfence, hline]

/-- Witness for C3 at the concrete lines of the spec examples. -/
theorem c3_resource_extraction_witness :
    Line.resource_links (parse_line (rawRes false (strC ("label")) (strC ("../assets/pic.png")))) =
      Except.ok [⟨strC ("../assets/pic.png"), strC ("label"), false⟩]
    ∧ (from_lines [parse_line (rawRes true (strC ("pic")) (strC ("../assets/pic.png")))]).bind
        Block.resource_links =
      Except.ok [⟨strC ("../assets/pic.png"), strC ("pic"), true⟩]
    ∧ ResourceLink.is_asset_file ⟨strC ("../assets/pic.png"), strC ("pic"), true⟩ = true := by
  have h1 := c3_resource_extraction (strC ("label")) (strC ("../assets/pic.png")) false
    (by decide) (by decide) (by decide) (by decide) (by decide)
  have h2 := c3_resource_extraction (strC ("pic")) (strC ("../assets/pic.png")) true
    (by decide) (by decide) (by decide) (by decide) (by decide)
  exact ⟨h1.1, h2.2.2, h2.2.1⟩

/- C9: tag-link extraction. -/

lemma matchTag_not_hash (prev : Option Char) (c : Char) (rest : Chars)
    (h : c ≠ '#') : matchTag prev (c :: rest) = none := by
  simp [matchTag, h]

lemma matchTag_tick_prev (rest : Chars) :
    matchTag (some '\x60') ('#' :: rest) = none := by
  simp [matchTag]

lemma scanTag_no_hash :
    ∀ (s : Chars), (∀ c ∈ s, c ≠ '#') →
    ∀ (fuel : Nat) (prev : Option Char), scanGo matchTag fuel prev s = [] := by
  intro s
  induction s with
  | nil => intro _ fuel prev; exact scanGo_nil matchTag fuel prev
  | cons c rest ih =>
    intro h fuel prev
    cases fuel with
    | zero => rfl
    | succ n =>
      rw [scanGo_cons_none _ _ _ _ _ (matchTag_not_hash prev c rest (h c (by simp)))]
      exact ih (fun q hq => h q (by simp [hq])) n (some c)

lemma isWordCh_not_tick (c : Char) (hc : isWordCh c = true) : (c == '\x60') = false := by
  rcases eq_or_ne c '\x60' with rfl | hcc
  · exact absurd hc (by decide)
  · simp [hcc]

lemma lastIsTick_word :
    ∀ (w : Chars), (∀ c ∈ w, isWordCh c = true) → w ≠ [] →
    lastIsTick ('#' :: w) = false := by
  intro w
  induction w with
  | nil => intro _ hne; exact absurd rfl hne
  | cons c rest ih =>
    intro hw _
    cases rest with
    | nil =>
      simp [lastIsTick, isWordCh_not_tick c (hw c (by simp))]
    | cons d rest2 =>
      have hstep : ('#' :: c :: d :: rest2).getLast? = ('#' :: d :: rest2).getLast? := by
        simp [List.getLast?_cons_cons]
      show (('#' :: c :: d :: rest2).getLast? == some '\x60') = false
      rw [hstep]
      exact ih (fun q hq => hw q (by simp [hq])) (by simp)

lemma spanWord_all :
    ∀ (xs : Chars), (∀ c ∈ xs, isWordCh c = true) → spanWord xs = (xs, []) := by
  intro xs
  induction xs with
  | nil => intro _; rfl
  | cons c rest ih =>
    intro h
    simp [spanWord, h c (by simp), ih (fun q hq => h q (by simp [hq]))]

lemma spanWord_stop (y : Char) (ys : Chars) (hy : isWordCh y = false) :
    ∀ (xs : Chars), (∀ c ∈ xs, isWordCh c = true) →
    spanWord (xs ++ y :: ys) = (xs, y :: ys) := by
  intro xs
  induction xs with
  | nil => intro _; simp [spanWord, hy]
  | cons c rest ih =>
    intro h
    simp [spanWord, h c (by simp), ih (fun q hq => h q (by simp [hq]))]

lemma matchTag_word (prev : Option Char) (w rest s0 : Chars)
    (hprev : prev ≠ some '\x60') (hne : w ≠ [])
    (hw : ∀ c ∈ w, isWordCh c = true) (hspan : spanWord s0 = (w, rest)) :
    matchTag prev ('#' :: s0) = some ((w, []), w.getLastD '#', rest) := by
  have hlt := lastIsTick_word w hw hne
  rcases w with _ | ⟨wc, wrest⟩
  · exact absurd rfl hne
  simp [matchTag, hprev, hspan, hlt]

lemma matchTag_bracket (prev : Option Char) (t rest : Chars)
    (hprev : prev ≠ some '\x60') (hne : t ≠ []) (ht : ∀ c ∈ t, c ≠ ']') :
    matchTag prev ('#' :: '[' :: '[' :: (t ++ ']' :: ']' :: rest)) =
      some (([], t), ']', rest) := by
  have hsp : spanWord ('[' :: '[' :: (t ++ ']' :: ']' :: rest)) =
      ([], '[' :: '[' :: (t ++ ']' :: ']' :: rest)) := rfl
  have hspan2 : spanNe ']' (t ++ ']' :: ']' :: rest) = (t, ']' :: ']' :: rest) :=
    spanNe_eq ']' t (']' :: rest) ht
  have hlt : lastIsTick ('#' :: '[' :: '[' :: (t ++ [']', ']'])) = false := by
    have hshape : ('#' :: '[' :: '[' :: (t ++ [']', ']'])) =
        (('#' :: '[' :: '[' :: t) ++ [']']) ++ [']'] := by simp
    show (('#' :: '[' :: '[' :: (t ++ [']', ']'])).getLast? == some '\x60') = false
    rw [hshape, List.getLast?_concat]
    rfl
  rcases t with _ | ⟨tc, tr⟩
  · exact absurd rfl hne
  simp only [List.cons_append] at hsp hspan2 hlt
  simp [matchTag, hprev, hsp, hspan2, hlt]

lemma content_hash (s0 : Chars) : (parse_line ('#' :: s0)).content = '#' :: s0 := rfl

lemma content_tick (s0 : Chars) :
    (parse_line ('\x60' :: s0)).content = '\x60' :: s0 := rfl

/-- C9 (amended): tag extraction yields one link per match of a hash sign
    followed by a bare word or a double-bracketed span, left to right; a
    match whose hash sign is immediately preceded by a backtick is
    excluded, but a backtick immediately after the matched token does not
    exclude it — the trailing lookbehind of the pattern inspects the last
    matched character, which is always a word character or a bracket. -/
theorem c9_tag_extraction (w t w2 : Chars)
    (hne : w ≠ []) (hw : ∀ c ∈ w, isWordCh c = true)
    (hnet : t ≠ []) (ht : ∀ c ∈ t, c ≠ ']')
    (hne2 : w2 ≠ []) (hw2 : ∀ c ∈ w2, isWordCh c = true) :
    Line.tag_links (parse_line ('#' :: w)) = [DirectLink.as_tag w]
    ∧ Line.tag_links (parse_line ('\x60' :: '#' :: w)) = []
    ∧ Line.tag_links (parse_line ('#' :: (w ++ ['\x60']))) = [DirectLink.as_tag w]
    ∧ Line.tag_links (parse_line ('#' :: '[' :: '[' :: (t ++ [']', ']']))) =
        [DirectLink.as_tag t]
    ∧ Line.tag_links (parse_line ('#' :: (w ++ ' ' :: '#' :: w2))) =
        [DirectLink.as_tag w, DirectLink.as_tag w2] := by
  have hwnh : ∀ c ∈ w, c ≠ '#' := by
    intro c hc
    have hcw := hw c hc
    rintro rfl
    exact absurd hcw (by decide)
  refine ⟨?_, ?_, ?_, ?_, ?_⟩
  · unfold Line.tag_links
    rw [content_hash, scanAll,
      scanGo_cons_match _ _ _ _ _ _ _ _
        (matchTag_word none w [] w (by decide) hne hw (spanWord_all w hw)),
      scanGo_nil]
    simp
  · unfold Line.tag_links
    rw [content_tick, scanAll,
      scanGo_cons_none _ _ _ _ _ (matchTag_not_hash none '\x60' ('#' :: w) (by decide)),
      show ('\x60' :: '#' :: w).length = ('#' :: w).length + 1 from rfl,
      scanGo_cons_none _ _ _ _ _ (matchTag_tick_prev w),
      scanTag_no_hash w hwnh _ _]
    rfl
  · unfold Line.tag_links
    rw [content_hash, scanAll,
      scanGo_cons_match _ _ _ _ _ _ _ _
        (matchTag_word none w ['\x60'] (w ++ ['\x60']) (by decide) hne hw
          (spanWord_stop '\x60' [] (by decide) w hw)),
      scanTag_no_hash ['\x60'] (by decide) _ _]
    simp
  · unfold Line.tag_links
    rw [content_hash, scanAll,
      scanGo_cons_match _ _ _ _ _ _ _ _
        (matchTag_bracket none t [] (by decide) hnet ht),
      scanGo_nil]
    simp [hnet]
  · unfold Line.tag_links
    rw [content_hash, scanAll]
    rw [show ('#' :: (w ++ ' ' :: '#' :: w2)).length + 1 =
        (((w.length + w2.length + 1) + 1) + 1) + 1 from by
      simp only [List.length_cons, List.length_append]; omega]
    rw [scanGo_cons_match _ _ _ _ _ _ _ _
        (matchTag_word none w (' ' :: '#' :: w2) (w ++ ' ' :: '#' :: w2)
          (by decide) hne hw (spanWord_stop ' ' ('#' :: w2) (by decide) w hw)),
      scanGo_cons_none _ _ _ _ _ (matchTag_not_hash _ ' ' ('#' :: w2) (by decide)),
      scanGo_cons_match _ _ _ _ _ _ _ _
        (matchTag_word (some ' ') w2 [] w2 (by decide) hne2 hw2 (spanWord_all w2 hw2)),
      scanGo_nil]
    simp

/-- Witness for C9 at concrete tag lines. -/
theorem c9_tag_extraction_witness :
    Line.tag_links (parse_line (strC ("#tag"))) = [DirectLink.as_tag (strC ("tag"))]
    ∧ Line.tag_links (parse_line (strC ("\x60#tag"))) = []
    ∧ Line.tag_links (parse_line (strC ("#tag\x60"))) = [DirectLink.as_tag (strC ("tag"))]
    ∧ Line.tag_links (parse_line (strC ("#[[a tag]]"))) = [DirectLink.as_tag (strC ("a tag"))]
    ∧ Line.tag_links (parse_line (strC ("#aa #bb"))) =
        [DirectLink.as_tag (strC ("aa")), DirectLink.as_tag (strC ("bb"))] := by
  have h := c9_tag_extraction (strC ("tag")) (strC ("a tag")) (strC ("bb"))
    (by decide) (by decide) (by decide) (by decide) (by decide) (by decide)
  have h2 := c9_tag_extraction (strC ("aa")) (strC ("x")) (strC ("bb"))
    (by decide) (by decide) (by decide) (by decide) (by decide) (by decide)
  exact ⟨h.1, h.2.1, h.2.2.1, h.2.2.2.1, h2.2.2.2.2⟩

/- C1: fence semantics of the derived views. -/

lemma fenceCount_cons (l : Line) (ls : List Line) :
    fenceCount (l :: ls) = (if l.is_code_fence then 1 else 0) + fenceCount ls := by
  by_cases h : l.is_code_fence <;>
    simp [fenceCount, List.filter_cons, h, Nat.add_comm]

lemma insideFenceAt_zero (b : Bool) (l : Line) (ls : List Line) :
    insideFenceAt b (l :: ls) 0 = (if l.is_code_fence then !b else b) := by
  by_cases h : l.is_code_fence <;>
    simp [insideFenceAt, fenceCount, List.filter_cons, h]

lemma insideFenceAt_cons (b : Bool) (l : Line) (ls : List Line) (i : Nat) :
    insideFenceAt b (l :: ls) (i + 1) =
      insideFenceAt (if l.is_code_fence then !b else b) ls i := by
  unfold insideFenceAt
  rw [List.take_succ_cons, fenceCount_cons]
  by_cases h : l.is_code_fence
  · simp only [h, if_true]
    have h2 : decide ((1 + fenceCount (List.take (i + 1) ls)) % 2 = 1) =
        !decide (fenceCount (List.take (i + 1) ls) % 2 = 1) := by
      by_cases hn : fenceCount (List.take (i + 1) ls) % 2 = 1 <;>
        simp [hn] <;> omega
    rw [h2]
    generalize decide (fenceCount (List.take (i + 1) ls) % 2 = 1) = d
    cases b <;> cases d <;> rfl
  · simp [h]

lemma gatherSkip_eq_fenceSkipped {α : Type} (f : Line → List α) :
    ∀ (lines : List Line) (b : Bool),
    gatherSkip f lines b =
      ((List.range lines.length).map
        (fun i => if insideFenceAt b lines i then [] else f (lines.getD i default))).flatten := by
  intro lines
  induction lines with
  | nil => intro b; simp [gatherSkip]
  | cons l rest ih =>
    intro b
    simp only [gatherSkip]
    rw [List.length_cons, List.range_succ_eq_map]
    simp only [List.map_cons, List.flatten_cons, List.map_map]
    congr 1
    · rw [insideFenceAt_zero]
      rfl
    · rw [ih (if l.is_code_fence then !b else b)]
      congr 1
      have hfun : ((fun i => if insideFenceAt b (l :: rest) i then []
            else f ((l :: rest).getD i default)) ∘ Nat.succ) =
          (fun i => if insideFenceAt (if l.is_code_fence then !b else b) rest i then []
            else f (rest.getD i default)) := by
        funext i
        show (if insideFenceAt b (l :: rest) (i + 1) then []
          else f ((l :: rest).getD (i + 1) default)) = _
        rw [insideFenceAt_cons]
        rfl
      rw [hfun]

/-- Per-line effectful extraction with every line inside an active fence
    region skipped, stated positionally over the line sequence; the first
    error in line order propagates. -/
def fenceSkippedE {α : Type} (f : Line → Except Err (List α))
    (lines : List Line) : Except Err (List α) :=
  (List.range lines.length).foldr
    (fun i acc =>
      if insideFenceAt false lines i then acc
      else
        match f (lines.getD i default) with
        | Except.error e => Except.error e
        | Except.ok xs => acc.map (fun ys => xs ++ ys))
    (Except.ok [])

lemma gatherSkipE_eq_fenceSkippedE {α : Type} (f : Line → Except Err (List α)) :
    ∀ (lines : List Line) (b : Bool),
    gatherSkipE f lines b =
      (List.range lines.length).foldr
        (fun i acc =>
          if insideFenceAt b lines i then acc
          else
            match f (lines.getD i default) with
            | Except.error e => Except.error e
            | Except.ok xs => acc.map (fun ys => xs ++ ys))
        (Except.ok []) := by
  intro lines
  induction lines with
  | nil => intro b; simp [gatherSkipE]
  | cons l rest ih =>
    intro b
    simp only [gatherSkipE]
    rw [List.length_cons, List.range_succ_eq_map, List.foldr_cons, List.foldr_map]
    have hfun : (fun i acc =>
        if insideFenceAt b (l :: rest) (Nat.succ i) then acc
        else
          match f ((l :: rest).getD (Nat.succ i) default) with
          | Except.error e => Except.error e
          | Except.ok xs => Except.map (fun ys => xs ++ ys) acc) =
        (fun i (acc : Except Err (List α)) =>
          if insideFenceAt (if l.is_code_fence then !b else b) rest i then acc
          else
            match f (rest.getD i default) with
            | Except.error e => Except.error e
            | Except.ok xs => Except.map (fun ys => xs ++ ys) acc) := by
      funext i acc
      rw [show Nat.succ i = i + 1 from rfl, insideFenceAt_cons]
      rfl
    rw [hfun, insideFenceAt_zero, ← ih (if l.is_code_fence then !b else b)]
    by_cases hb : (if l.is_code_fence then !b else b) = true
    · simp [hb]
    · rw [Bool.not_eq_true] at hb
      cases hf : f l with
      | error e => simp [hb, hf]
      | ok xs =>
        cases hrest : gatherSkipE f rest (if l.is_code_fence then !b else b) with
        | error e => simp [hb, hf, hrest, Except.map]
        | ok ys => simp [hb, hf, hrest, Except.map]

/-- C1 (amended): all four link-aggregation views — links, tag_links,
    block_links and resource_links — skip exactly the lines lying inside
    an active code-fence region, characterized positionally by the parity
    of the fence count up to and including each line, while the content
    view includes every content-flagged line with no fence tracking at
    all. -/
theorem c1_views_fence_semantics (b : Block) :
    Block.content b = joinNl ((b.lines.filter Line.is_content).map Line.content)
    ∧ Block.links b = fenceSkipped Line.links b.lines
    ∧ Block.tag_links b = fenceSkipped Line.tag_links b.lines
    ∧ Block.block_links b = fenceSkippedE Line.block_links b.lines
    ∧ Block.resource_links b = fenceSkippedE Line.resource_links b.lines := by
  refine ⟨rfl, ?_, ?_, ?_, ?_⟩
  · exact gatherSkip_eq_fenceSkipped Line.links b.lines false
  · exact gatherSkip_eq_fenceSkipped Line.tag_links b.lines false
  · exact gatherSkipE_eq_fenceSkippedE Line.block_links b.lines false
  · exact gatherSkipE_eq_fenceSkippedE Line.resource_links b.lines false
